import Mathlib

set_option autoImplicit false

namespace Dusk

/-!
Shallow embedding of the dusk-blockchain node sources:
wire encoding of consensus events (`pkg/core/consensus/events/marshalling.go`),
the signature-set reduction phase (`pkg/core/consensus/reduction/setreduction.go`,
`pkg/core/consensus/setgeneration.go`) and the chain manager
(`pkg/core/chain/chain.go`).  Bytes are `Nat` values below 256; machine
integers are `Nat` with explicit `% 2^w` where the Go code truncates.
-/

/-! ## Wire encoding primitives -/

/-- Modelled from the spec: the `encoding` package (WriteUint8/WriteUint64 and
friends) is not under src/; §1 declares the byte-for-byte wire layout a
non-goal, only field order and types are specified.  Integers are therefore
modelled as little-endian fixed-width byte strings.  `natToBytesLE k n` is the
`k`-byte little-endian encoding of `n % 256^k`. -/
def natToBytesLE : Nat → Nat → List Nat
  | 0, _ => []
  | k + 1, n => n % 256 :: natToBytesLE k (n / 256)

/-- Recompose a little-endian byte string into a number. -/
def bytesToNatLE : List Nat → Nat
  | [] => 0
  | b :: rest => b + 256 * bytesToNatLE rest

/-- WriteUint8: one byte. -/
def writeUint8 (n : Nat) : List Nat := [n % 256]

/-- ReadUint8: consume one byte. -/
def readUint8 : List Nat → Option (Nat × List Nat)
  | [] => none
  | b :: rest => some (b, rest)

/-- WriteUint64 (little endian). -/
def writeUint64 (n : Nat) : List Nat := natToBytesLE 8 n

/-- ReadUint64 (little endian): consume eight bytes. -/
def readUint64 (bs : List Nat) : Option (Nat × List Nat) :=
  if 8 ≤ bs.length then some (bytesToNatLE (bs.take 8), bs.drop 8) else none

/-- Modelled from the spec: WriteVarInt's variable-length layout is out of the
spec's scope (§1 non-goals), so the length is modelled as a fixed 8-byte
little-endian integer. -/
def writeVarInt (n : Nat) : List Nat := writeUint64 n

/-- ReadVarInt, inverse of `writeVarInt`. -/
def readVarInt (bs : List Nat) : Option (Nat × List Nat) := readUint64 bs

/-- WriteVarBytes: length-prefixed byte string. -/
def writeVarBytes (bs : List Nat) : List Nat := writeVarInt bs.length ++ bs

/-- ReadVarBytes: read a length prefix, then that many bytes. -/
def readVarBytes (bs : List Nat) : Option (List Nat × List Nat) :=
  match readVarInt bs with
  | none => none
  | some (len, rest) =>
    if len ≤ rest.length then some (rest.take len, rest.drop len) else none

/-- Write256: exactly 32 bytes; errors on any other length. -/
def write256 (bs : List Nat) : Option (List Nat) :=
  if bs.length = 32 then some bs else none

/-- Read256: consume exactly 32 bytes. -/
def read256 (bs : List Nat) : Option (List Nat × List Nat) :=
  if 32 ≤ bs.length then some (bs.take 32, bs.drop 32) else none

/-- Modelled from the spec: WriteBLS's byte layout is out of the spec's scope;
a BLS signature is modelled as a length-prefixed byte string. -/
def writeBLS (bs : List Nat) : List Nat := writeVarBytes bs

/-- ReadBLS, inverse of `writeBLS`. -/
def readBLS (bs : List Nat) : Option (List Nat × List Nat) := readVarBytes bs

/-! ## Consensus events (`events/marshalling.go`)

The event structs themselves are declared outside src/; their fields are taken
from their uses in `marshalling.go` (PubKeyBLS/Round/Step, VotedHash/SignedHash,
SignedVoteSet/VoteSet/AgreedHash) and from the spec's data model §3. -/

/-- Common consensus event header: BLS public key, round, step. -/
structure Header where
  pubKeyBLS : List Nat
  round : Nat
  step : Nat
deriving DecidableEq

/-- Reduction event: header plus a 32-byte voted hash and a BLS signature. -/
structure Reduction where
  header : Header
  votedHash : List Nat
  signedHash : List Nat
deriving DecidableEq

/-- Agreement event: header plus a signed vote set, the vote set itself (a list
of reduction events) and a 32-byte agreed hash. -/
structure Agreement where
  header : Header
  signedVoteSet : List Nat
  voteSet : List Reduction
  agreedHash : List Nat
deriving DecidableEq

/-- HeaderMarshaller.Marshal: BLS public key, round, step. -/
def Header.marshal (h : Header) : List Nat :=
  writeVarBytes h.pubKeyBLS ++ writeUint64 h.round ++ writeUint8 h.step

/-- HeaderUnmarshaller.Unmarshal. -/
def Header.unmarshal (bs : List Nat) : Option (Header × List Nat) :=
  match readVarBytes bs with
  | none => none
  | some (pk, bs1) =>
    match readUint64 bs1 with
    | none => none
    | some (r, bs2) =>
      match readUint8 bs2 with
      | none => none
      | some (s, bs3) => some (⟨pk, r, s⟩, bs3)

/-- ReductionUnMarshaller.Marshal: header, 32-byte voted hash, BLS signature. -/
def Reduction.marshal (ev : Reduction) : Option (List Nat) :=
  match write256 ev.votedHash with
  | none => none
  | some vh => some (Header.marshal ev.header ++ vh ++ writeBLS ev.signedHash)

/-- ReductionUnMarshaller.Unmarshal. -/
def Reduction.unmarshal (bs : List Nat) : Option (Reduction × List Nat) :=
  match Header.unmarshal bs with
  | none => none
  | some (h, bs1) =>
    match read256 bs1 with
    | none => none
    | some (vh, bs2) =>
      match readBLS bs2 with
      | none => none
      | some (sig, bs3) => some (⟨h, vh, sig⟩, bs3)

/-- Marshal the elements of a vote set in order, failing if any element fails. -/
def marshalReductionList : List Reduction → Option (List Nat)
  | [] => some []
  | ev :: rest =>
    match ev.marshal, marshalReductionList rest with
    | some b, some bs => some (b ++ bs)
    | _, _ => none

/-- ReductionUnMarshaller.MarshalVoteSet: element count, then each element. -/
def marshalVoteSet (evs : List Reduction) : Option (List Nat) :=
  (marshalReductionList evs).map (fun body => writeVarInt evs.length ++ body)

/-- Unmarshal `k` reduction events in sequence. -/
def unmarshalReductionList : Nat → List Nat → Option (List Reduction × List Nat)
  | 0, bs => some ([], bs)
  | k + 1, bs =>
    match Reduction.unmarshal bs with
    | none => none
    | some (ev, rest) =>
      match unmarshalReductionList k rest with
      | none => none
      | some (evs, rest2) => some (ev :: evs, rest2)

/-- ReductionUnMarshaller.UnmarshalVoteSet. -/
def unmarshalVoteSet (bs : List Nat) : Option (List Reduction × List Nat) :=
  match readVarInt bs with
  | none => none
  | some (len, rest) => unmarshalReductionList len rest

/-- AgreementUnMarshaller.Marshal: header, signed vote set, vote set, agreed hash. -/
def Agreement.marshal (ev : Agreement) : Option (List Nat) :=
  match marshalVoteSet ev.voteSet, write256 ev.agreedHash with
  | some vs, some ah =>
    some (Header.marshal ev.header ++ writeBLS ev.signedVoteSet ++ vs ++ ah)
  | _, _ => none

/-- AgreementUnMarshaller.Unmarshal. -/
def Agreement.unmarshal (bs : List Nat) : Option (Agreement × List Nat) :=
  match Header.unmarshal bs with
  | none => none
  | some (h, bs1) =>
    match readBLS bs1 with
    | none => none
    | some (sig, bs2) =>
      match unmarshalVoteSet bs2 with
      | none => none
      | some (vs, bs3) =>
        match read256 bs3 with
        | none => none
        | some (ah, bs4) => some (⟨h, sig, vs, ah⟩, bs4)

/-- Well-formedness of a header w.r.t. the Go field types: the round fits in a
uint64, the step in a uint8, and the key's length in the varint prefix. -/
def Header.wf (h : Header) : Prop :=
  h.pubKeyBLS.length < 2 ^ 64 ∧ h.round < 2 ^ 64 ∧ h.step < 256

/-- Well-formedness of a reduction event: 32-byte voted hash, encodable
signature length. -/
def Reduction.wf (ev : Reduction) : Prop :=
  ev.header.wf ∧ ev.votedHash.length = 32 ∧ ev.signedHash.length < 2 ^ 64

/-- Well-formedness of an agreement event. -/
def Agreement.wf (ev : Agreement) : Prop :=
  ev.header.wf ∧ ev.signedVoteSet.length < 2 ^ 64 ∧ ev.agreedHash.length = 32 ∧
    ev.voteSet.length < 2 ^ 64 ∧ ∀ r ∈ ev.voteSet, r.wf

instance : DecidablePred Header.wf := fun h => by
  unfold Header.wf; infer_instance

instance : DecidablePred Reduction.wf := fun ev => by
  unfold Reduction.wf; infer_instance

instance : DecidablePred Agreement.wf := fun ev => by
  unfold Agreement.wf; infer_instance

/-! ## Signature-set reduction (`reduction/setreduction.go`)

Public keys, hashes and vote sets are byte strings (`List Nat`); a vote set is
abstracted as a list of vote identifiers. -/

/-- Modelled from the spec (§4.1): the `sortition` package is not under src/.
A committee is the ordered multiset of seat holders ("deterministic sequence of
k provisioner public keys, with multiplicity"); `Verify(committee, pk)` returns
the number of seats `pk` holds. -/
def sortitionVerify (committee : List (List Nat)) (pk : List Nat) : Nat :=
  (committee.filter (fun m => decide (m = pk))).length

/-- A signature-set vote message as consumed by `countSigSetVotes`: the
Ed25519 sender key (`m.PubKey`) and the voted set hash
(`m.Payload.(*consensusmsg.SigSetVote).SigSetHash`). -/
structure SigSetVoteMsg where
  pubKey : List Nat
  sigSetHash : List Nat
deriving DecidableEq

/-- One iteration of the vote-collection loop of `countSigSetVotes`
(setreduction.go:154-183) on state (counts, voters): a message from an
already-recorded sender is dropped; otherwise the sender's seat count is added
to its hash's tally (a `uint8` tally, hence `% 256`) and, if the tally reaches
`voteLimit = uint8(len(ctx.CurrentCommittee))`, the loop stops with that hash. -/
def countStep (committee : List (List Nat)) (counts : List Nat → Nat)
    (voters : List (List Nat)) (m : SigSetVoteMsg) :
    ((List Nat → Nat) × List (List Nat)) ⊕ List Nat :=
  if m.pubKey ∈ voters then Sum.inl (counts, voters)
  else
    if (counts m.sigSetHash + sortitionVerify committee m.pubKey) % 256 <
        committee.length % 256 then
      Sum.inl
        (fun h =>
          if h = m.sigSetHash then
            (counts m.sigSetHash + sortitionVerify committee m.pubKey) % 256
          else counts h,
        m.pubKey :: voters)
    else Sum.inr m.sigSetHash

/-- The vote-collection loop of `countSigSetVotes` run over the sequence of
messages that arrive before the step timer fires: `none` models the timeout
path (`ctx.SigSetHash = nil`), `some h` the quorum path. -/
def countSigSetVotesLoop (committee : List (List Nat)) :
    List SigSetVoteMsg → (List Nat → Nat) → List (List Nat) → Option (List Nat)
  | [], _, _ => none
  | m :: rest, counts, voters =>
    match countStep committee counts voters m with
    | Sum.inl (counts', voters') => countSigSetVotesLoop committee rest counts' voters'
    | Sum.inr h => some h

/-- Aggregated committee weight on hash `h` of the senders of `msgs` not yet in
`voters`, deduplicated by sender (first occurrence wins).  This is the
"aggregated committee weight (seats of deduplicated senders)" of the spec. -/
def aggW (committee : List (List Nat)) :
    List (List Nat) → List SigSetVoteMsg → List Nat → Nat
  | _, [], _ => 0
  | voters, m :: rest, h =>
    if m.pubKey ∈ voters then aggW committee voters rest h
    else
      (if m.sigSetHash = h then sortitionVerify committee m.pubKey else 0) +
        aggW committee (m.pubKey :: voters) rest h

/-- Aggregated deduplicated committee weight on `h` over a whole vote sequence. -/
def aggregatedWeight (committee : List (List Nat)) (msgs : List SigSetVoteMsg)
    (h : List Nat) : Nat :=
  aggW committee [] msgs h

/-- The spec's quorum threshold, following the spec's words: `⌈2/3 · size⌉`
("Quorum: aggregate committee weight ≥ ⌈2/3 · committeeSize⌉").  Declared for
comparison against the threshold the code actually uses. -/
def specQuorumThreshold (size : Nat) : Nat := (2 * size + 2) / 3

/-- Mutable state of the signature-set reduction phase (`user.Context` fields
touched by setreduction.go): the step counter, `SigSetHash` (nil-able),
`SigSetVotes`, and the `AllVotes` map from set hash to vote set (a Go map whose
missing entries read as the empty slice). -/
structure ReductionCtx where
  step : Nat
  sigSetHash : Option (List Nat)
  sigSetVotes : List Nat
  allVotes : List Nat → List Nat

/-- `sigSetVote` (setreduction.go:73-134), state part: the committee for the
step is created by sortition (taken here as a parameter, the sortition package
being outside src/); a node outside the committee does not vote; otherwise the
node hashes its vote set (`ctx.HashVotes`, a crypto routine outside src/, taken
as a parameter), stores it in `SigSetHash` and `AllVotes`, and gossips the
vote.  Signing and gossip have no effect on the embedded state. -/
def sigSetVote (committee : List (List Nat)) (edPubKey : List Nat)
    (hashVotes : List Nat → List Nat) (ctx : ReductionCtx) : ReductionCtx :=
  if sortitionVerify committee edPubKey = 0 then ctx
  else
    let h := hashVotes ctx.sigSetVotes
    { ctx with
      sigSetHash := some h
      allVotes := fun k => if k = h then ctx.sigSetVotes else ctx.allVotes k }

/-- `countSigSetVotes` (setreduction.go:136-186) at the context level: fresh
counts and voters, then the collection loop; on timeout `SigSetHash` becomes
nil, on quorum it becomes the winning hash and `SigSetVotes` the vote set
recorded for it in `AllVotes`. -/
def countSigSetVotes (committee : List (List Nat)) (msgs : List SigSetVoteMsg)
    (ctx : ReductionCtx) : ReductionCtx :=
  match countSigSetVotesLoop committee msgs (fun _ => 0) [] with
  | none => { ctx with sigSetHash := none }
  | some h => { ctx with sigSetHash := some h, sigSetVotes := ctx.allVotes h }

/-- The 32-byte zero hash, `fallback := make([]byte, 32)` in `SignatureSet`. -/
def emptyHash : List Nat := List.replicate 32 0

/-- `SignatureSet` up to the end of the first reduction step: own vote, vote
counting, step increment (setreduction.go:24-33). -/
def firstStepState (cA : List (List Nat)) (edPk : List Nat)
    (hv : List Nat → List Nat) (msgs1 : List SigSetVoteMsg)
    (ctx0 : ReductionCtx) : ReductionCtx :=
  let st := countSigSetVotes cA msgs1 (sigSetVote cA edPk hv ctx0)
  { st with step := st.step + 1 }

/-- `SignatureSet` at entry to the second reduction step: a first-step timeout
(`ctx.SigSetHash == nil`) is replaced by the 32-byte zero fallback hash
(setreduction.go:36-38). -/
def secondStepEntry (cA : List (List Nat)) (edPk : List Nat)
    (hv : List Nat → List Nat) (msgs1 : List SigSetVoteMsg)
    (ctx0 : ReductionCtx) : ReductionCtx :=
  let st := firstStepState cA edPk hv msgs1 ctx0
  { st with sigSetHash := some (st.sigSetHash.getD emptyHash) }

/-- `SignatureSet` (setreduction.go:19-71): two vote-count steps; afterwards,
on timeout (`SigSetHash == nil`) or on agreement on the zero fallback hash the
function returns without forming an Agreement; otherwise
`agreement.SendSet(ctx, ctx.SigSetVotes)` is invoked — the second component
carries its vote-set payload (`none` = no Agreement formed). -/
def SignatureSet (cA cB : List (List Nat)) (edPk : List Nat)
    (hv : List Nat → List Nat) (msgs1 msgs2 : List SigSetVoteMsg)
    (ctx0 : ReductionCtx) : ReductionCtx × Option (List Nat) :=
  let st5 := countSigSetVotes cB msgs2 (sigSetVote cB edPk hv (secondStepEntry cA edPk hv msgs1 ctx0))
  let st6 := { st5 with step := st5.step + 1 }
  match st6.sigSetHash with
  | none => (st6, none)
  | some h =>
    if h = emptyHash then ({ st6 with sigSetHash := none }, none)
    else (st6, some st6.sigSetVotes)

/-! ## Chain manager (`chain/chain.go`)

The block, certificate and provisioner data types live in packages outside
src/; their fields are modelled from the spec's data model §3 and from their
uses in chain.go. -/

/-- Modelled from the spec (§3 Certificate): aggregated BLS signature over the
block hash, the signers bitmap within the step committee, and the step number
at which agreement was reached. -/
structure Certificate where
  batchedSig : List Nat
  step : Nat
  committeeBitSet : Nat
deriving DecidableEq

/-- Modelled from the spec (§3 Block): the header fields chain.go reads. -/
structure BlockHeader where
  version : Nat
  height : Nat
  timestamp : Int
  prevBlockHash : List Nat
  seed : List Nat
  txRoot : List Nat
  stateHash : List Nat
  hash : List Nat
  certificate : Certificate
deriving DecidableEq

/-- Modelled from the spec (§3 Block): header plus ordered transaction list;
transactions are opaque identifiers here. -/
structure Block where
  header : BlockHeader
  txs : List Nat
deriving DecidableEq

/-- Modelled from the spec (§3 Provisioner): a stake window. -/
structure Stake where
  amount : Nat
  startHeight : Nat
  endHeight : Nat
deriving DecidableEq

/-- Modelled from the spec (§3 Provisioner): BLS key plus stake windows. -/
structure Member where
  publicKeyBLS : List Nat
  stakes : List Stake
deriving DecidableEq

/-- Modelled from the spec (§3): the provisioner set, an ordered set of BLS
keys plus the member records (`user.Provisioners`). -/
structure Provisioners where
  set : List (List Nat)
  members : List (List Nat × Member)
deriving DecidableEq

/-- `Provisioners.Copy`: a deep copy, which for the value semantics of the
embedding rebuilds an equal value. -/
def Provisioners.copy (p : Provisioners) : Provisioners :=
  { set := p.set, members := p.members }

/-- Synchronizer state (spec §4.3): a two-state machine. -/
inductive SyncState
  | inSync
  | outOfSync
deriving DecidableEq

/-- The chain's mutable state as touched by the embedded paths: tip block,
provisioner set, highest seen height, synchronizer state. -/
structure ChainState where
  tip : Block
  p : Provisioners
  highestSeen : Nat
  syncState : SyncState
deriving DecidableEq

/-- The external verifier dependencies of chain.go that live outside src/:
the stateless sanity checks other than lineage (timestamp, size, tx-root) and
`verifiers.CheckBlockCertificate`, kept abstract. -/
structure BlockVerifier where
  extraSanity : Block → Block → Bool
  checkCert : Provisioners → Block → List Nat → Bool

/-- Errors surfaced by the embedded chain paths: `errInvalidStateHash`,
block/certificate verification failure, executor RPC failure. -/
inductive ChainError
  | invalidStateHash
  | invalidBlock
  | executorError
deriving DecidableEq

/-- Which executor RPC a state transition used. -/
inductive ExecOp
  | finalize
  | accept
deriving DecidableEq

/-- A recorded executor RPC invocation with its arguments. -/
structure ExecCall where
  op : ExecOp
  txs : List Nat
  prevStateHash : List Nat
  height : Nat
  gasLimit : Nat
deriving DecidableEq

/-- Modelled from the spec: `config.BlockGasLimit` is not under src/; the
constant's value is irrelevant to the claims. -/
def blockGasLimit : Nat := 5000000000

/-- The executor proxy (rusk), an external RPC collaborator (spec §6): the
response of `GetStateRoot` and of the two state-transition RPCs, `none`
modelling an RPC failure. -/
structure Executor where
  stateRoot : Option (List Nat)
  finalize : List Nat → List Nat → Nat → Nat → Option (Provisioners × List Nat)
  accept : List Nat → List Nat → Nat → Nat → Option (Provisioners × List Nat)

/-- The executor call made by `runStateTransition` (chain.go:307-330): the
`Finalize` RPC when `blk.Header.Certificate.Step` is 3, the `Accept` RPC
otherwise, both with (txs, previous tip's state hash, block height, gas
limit). -/
def execCallFor (blk : Block) (prevStateHash : List Nat) : ExecCall :=
  { op := if blk.header.certificate.step = 3 then ExecOp.finalize else ExecOp.accept
    txs := blk.txs
    prevStateHash := prevStateHash
    height := blk.header.height
    gasLimit := blockGasLimit }

/-- Dispatch a recorded call to the executor. -/
def runExec (e : Executor) (call : ExecCall) : Option (Provisioners × List Nat) :=
  match call.op with
  | ExecOp.finalize => e.finalize call.txs call.prevStateHash call.height call.gasLimit
  | ExecOp.accept => e.accept call.txs call.prevStateHash call.height call.gasLimit

/-- `Chain.runStateTransition` (chain.go:281-347): sanity check that node and
rusk agree on the tip state hash (`sanityCheckStateHash`, chain.go:350-371),
dispatch Finalize/Accept on the certificate step, reject with
`errInvalidStateHash` when the returned state hash differs from the block
header's, and only then install the updated provisioners.  The third component
logs the executor state-transition calls made. -/
def runStateTransition (e : Executor) (c : ChainState) (blk : Block) :
    ChainState × Option ChainError × List ExecCall :=
  match e.stateRoot with
  | none => (c, some ChainError.executorError, [])
  | some ruskStateHash =>
    if ¬ (c.tip.header.stateHash = ruskStateHash) ∨ c.tip.header.stateHash = [] then
      (c, some ChainError.invalidStateHash, [])
    else
      match runExec e (execCallFor blk c.tip.header.stateHash) with
      | none => (c, some ChainError.executorError,
          [execCallFor blk c.tip.header.stateHash])
      | some (provisionersUpdated, respStateHash) =>
        if respStateHash = blk.header.stateHash then
          ({ c with p := provisionersUpdated }, none,
            [execCallFor blk c.tip.header.stateHash])
        else (c, some ChainError.invalidStateHash,
          [execCallFor blk c.tip.header.stateHash])

/-- Modelled from the spec (§4.3 accept path, steps 1-2): the `verifiers`
package (`SanityCheckBlock`) is not under src/.  Lineage (height = tip+1,
prev-hash = tip hash) is explicit; the remaining stateless checks are the
abstract `extraSanity`. -/
def sanityCheckBlock (v : BlockVerifier) (prevBlock blk : Block) : Bool :=
  decide (blk.header.height = prevBlock.header.height + 1) &&
    decide (blk.header.prevBlockHash = prevBlock.header.hash) &&
    v.extraSanity prevBlock blk

/-- `Chain.isValidBlock` (chain.go:373-394): sanity checks, then certificate
verification against the current provisioners and the tip seed. -/
def isValidBlock (v : BlockVerifier) (c : ChainState) (blk : Block) : Bool :=
  sanityCheckBlock v c.tip blk && v.checkCert c.p blk c.tip.header.seed

/-- Result of `Chain.acceptBlock`: the chain state afterwards, the returned
error, whether the block was appended to storage, and whether an AcceptedBlock
event was published. -/
structure AcceptResult where
  chain : ChainState
  err : Option ChainError
  appended : Bool
  publishedAccepted : Bool
deriving DecidableEq

/-- `Chain.acceptBlock` (chain.go:396-438): validity checks, state transition,
then append to storage, tip swap and the post-accept events (AcceptedBlock
publication).  Any error leaves the sequence at the failing step. -/
def acceptBlock (v : BlockVerifier) (e : Executor) (c : ChainState) (blk : Block) :
    AcceptResult :=
  if isValidBlock v c blk then
    match runStateTransition e c blk with
    | (c1, some err, _) => ⟨c1, some err, false, false⟩
    | (c1, none, _) => ⟨{ c1 with tip := blk }, none, true, true⟩
  else ⟨c, some ChainError.invalidBlock, false, false⟩

/-- The `highestSeen` update step of `Chain.acceptSuccessiveBlock`
(chain.go:269-271), applied only when acceptance succeeded. -/
def updateHighestSeen (r : AcceptResult) (blk : Block) : AcceptResult :=
  match r.err with
  | some _ => r
  | none =>
    if r.chain.highestSeen < blk.header.height then
      { r with chain := { r.chain with highestSeen := blk.header.height } }
    else r

/-- `Chain.acceptSuccessiveBlock` (chain.go:262-279): accept the block, then
raise `highestSeen` if the block is beyond it (propagation is bus-only). -/
def acceptSuccessiveBlock (v : BlockVerifier) (e : Executor) (c : ChainState)
    (blk : Block) : AcceptResult :=
  updateHighestSeen (acceptBlock v e c blk) blk

/-- Modelled from the spec (§4.3 Synchronizer): the synchronizer source file is
not under src/.  A direct successor of the tip is accepted
(`TryNextConsecutiveBlockInSync` / `OutSync`, both of which run
`Chain.acceptBlock`); a block beyond tip+1 switches to OutOfSync and issues a
catch-up request (third component); anything else is buffered with no state
change. -/
def synchronizerProcessBlock (v : BlockVerifier) (e : Executor) (c : ChainState)
    (blk : Block) : ChainState × Option ChainError × Option Nat :=
  if blk.header.height = c.tip.header.height + 1 then
    ((acceptSuccessiveBlock v e c blk).chain, (acceptSuccessiveBlock v e c blk).err,
      none)
  else if c.tip.header.height + 1 < blk.header.height then
    ({ c with syncState := SyncState.outOfSync }, none, some blk.header.height)
  else (c, none, none)

/-- Modelled from the spec (§4.3 Fallback): the fallback source file is not
under src/.  A block at tip height with a different hash and a valid
certificate replaces the tip (revert plus re-acceptance at the same height);
otherwise the tip is kept. -/
def tryFallback (v : BlockVerifier) (c : ChainState) (blk : Block) : ChainState :=
  if blk.header.height = c.tip.header.height &&
      v.checkCert c.p blk c.tip.header.seed then
    { c with tip := blk }
  else c

/-- `Chain.ProcessBlockFromNetwork` (chain.go:154-196): a block at tip height
is discarded when it is the tip itself and otherwise goes to the fallback
procedure (whose error is only logged); a block below the tip is discarded; a
higher block raises `highestSeen` and goes to the synchronizer. -/
def ProcessBlockFromNetwork (v : BlockVerifier) (e : Executor) (c : ChainState)
    (blk : Block) : ChainState × Option ChainError × Option Nat :=
  if blk.header.height = c.tip.header.height then
    if blk.header.hash = c.tip.header.hash then (c, none, none)
    else (tryFallback v c blk, none, none)
  else if blk.header.height < c.tip.header.height then (c, none, none)
  else
    synchronizerProcessBlock v e
      (if c.highestSeen < blk.header.height then
        { c with highestSeen := blk.header.height }
      else c) blk

/-- A round update (spec §3, `consensus.RoundUpdate`). -/
structure RoundUpdate where
  round : Nat
  p : Provisioners
  seed : List Nat
  hash : List Nat
  lastCertificate : Certificate
deriving DecidableEq

/-- `Chain.getRoundUpdate` (chain.go:537-545). -/
def getRoundUpdate (c : ChainState) : RoundUpdate :=
  { round := c.tip.header.height + 1
    p := c.p.copy
    seed := c.tip.header.seed
    hash := c.tip.header.hash
    lastCertificate := c.tip.header.certificate }

/-! ## Concrete sample data

Used to instantiate theorems with hypotheses at explicit inputs. -/

/-- A sample block header: height, previous hash, own hash, state hash and
certificate step; the remaining fields are fixed. -/
def mkHeader (ht : Nat) (prev hs sh : List Nat) (certStep : Nat) : BlockHeader :=
  { version := 0, height := ht, timestamp := 0, prevBlockHash := prev
    seed := [3], txRoot := [], stateHash := sh, hash := hs
    certificate := { batchedSig := [7], step := certStep, committeeBitSet := 0 } }

/-- A sample block with no transactions. -/
def mkBlock (ht : Nat) (prev hs sh : List Nat) (certStep : Nat) : Block :=
  { header := mkHeader ht prev hs sh certStep, txs := [] }

/-- A sample chain tip at height 5 with state hash `[1]`. -/
def tip0 : Block := mkBlock 5 [] [10] [1] 3

/-- A sample chain state whose tip is `tip0`. -/
def chain0 : ChainState :=
  { tip := tip0, p := { set := [], members := [] }, highestSeen := 5
    syncState := SyncState.inSync }

/-- A sample executor agreeing with `chain0` on state hash `[1]` and answering
every state transition with state hash `[2]`. -/
def exec0 : Executor :=
  { stateRoot := some [1]
    finalize := fun _ _ _ _ => some ({ set := [[8]], members := [] }, [2])
    accept := fun _ _ _ _ => some ({ set := [[8]], members := [] }, [2]) }

/-- A sample verifier that accepts everything. -/
def verifier0 : BlockVerifier :=
  { extraSanity := fun _ _ => true, checkCert := fun _ _ _ => true }

/-- A successor of `tip0` whose certificate step is 1. -/
def blockStep1 : Block := mkBlock 6 [10] [11] [2] 1

/-- A successor of `tip0` declaring state hash `0xAA` while the executor
answers `[2]`. -/
def blockBadHash : Block := mkBlock 6 [10] [11] [170] 3

end Dusk

namespace Dusk

/-! ## Wire-encoding round-trip lemmas -/

theorem natToBytesLE_length (k n : Nat) : (natToBytesLE k n).length = k := by
  induction k generalizing n with
  | zero => rfl
  | succ k ih => simp [natToBytesLE, ih]

theorem bytesToNatLE_natToBytesLE (k n : Nat) :
    bytesToNatLE (natToBytesLE k n) = n % 256 ^ k := by
  induction k generalizing n with
  | zero => simp [natToBytesLE, bytesToNatLE, Nat.mod_one]
  | succ k ih =>
    have h : (256 : Nat) ^ (k + 1) = 256 * 256 ^ k := by ring
    rw [natToBytesLE, bytesToNatLE, ih, h, Nat.mod_mul]

theorem readUint64_writeUint64 (n : Nat) (rest : List Nat) :
    readUint64 (writeUint64 n ++ rest) = some (n % 2 ^ 64, rest) := by
  have hlen : (natToBytesLE 8 n).length = 8 := natToBytesLE_length 8 n
  have hpow : (256 : Nat) ^ 8 = 2 ^ 64 := by norm_num
  unfold writeUint64 readUint64
  rw [if_pos]
  · rw [List.take_left' hlen, List.drop_left' hlen, bytesToNatLE_natToBytesLE, hpow]
  · rw [List.length_append, hlen]; omega

theorem readUint8_writeUint8 (n : Nat) (rest : List Nat) :
    readUint8 (writeUint8 n ++ rest) = some (n % 256, rest) := rfl

theorem readVarBytes_writeVarBytes (bs rest : List Nat) (h : bs.length < 2 ^ 64) :
    readVarBytes (writeVarBytes bs ++ rest) = some (bs, rest) := by
  unfold writeVarBytes readVarBytes readVarInt writeVarInt
  rw [List.append_assoc, readUint64_writeUint64, Nat.mod_eq_of_lt h]
  simp only
  rw [if_pos]
  · rw [List.take_left, List.drop_left]
  · rw [List.length_append]; omega

theorem read256_append (bs rest : List Nat) (h : bs.length = 32) :
    read256 (bs ++ rest) = some (bs, rest) := by
  unfold read256
  rw [if_pos]
  · rw [← h, List.take_left, List.drop_left]
  · rw [List.length_append]; omega

theorem header_unmarshal_marshal (h : Header) (rest : List Nat) (hwf : h.wf) :
    Header.unmarshal (Header.marshal h ++ rest) = some (h, rest) := by
  obtain ⟨h1, h2, h3⟩ := hwf
  unfold Header.marshal Header.unmarshal
  rw [List.append_assoc, List.append_assoc,
    readVarBytes_writeVarBytes _ _ h1]
  simp only
  rw [readUint64_writeUint64, Nat.mod_eq_of_lt h2]
  simp only
  rw [readUint8_writeUint8, Nat.mod_eq_of_lt h3]

theorem readBLS_writeBLS (bs rest : List Nat) (h : bs.length < 2 ^ 64) :
    readBLS (writeBLS bs ++ rest) = some (bs, rest) :=
  readVarBytes_writeVarBytes bs rest h

theorem reduction_unmarshal_marshal (ev : Reduction) (out rest : List Nat)
    (hwf : ev.wf) (hm : ev.marshal = some out) :
    Reduction.unmarshal (out ++ rest) = some (ev, rest) := by
  obtain ⟨hh, hv, hs⟩ := hwf
  unfold Reduction.marshal at hm
  rw [write256, if_pos hv] at hm
  simp only [Option.some.injEq] at hm
  subst hm
  unfold Reduction.unmarshal
  rw [List.append_assoc, List.append_assoc, header_unmarshal_marshal _ _ hh]
  simp only
  rw [read256_append _ _ hv]
  simp only
  rw [readBLS_writeBLS _ _ hs]

theorem Reduction.marshal_isSome (ev : Reduction) (hwf : ev.wf) :
    ev.marshal = some (Header.marshal ev.header ++ ev.votedHash ++ writeBLS ev.signedHash) := by
  unfold Reduction.marshal
  rw [write256, if_pos hwf.2.1]

theorem marshalReductionList_isSome (evs : List Reduction)
    (hwf : ∀ r ∈ evs, r.wf) : ∃ out, marshalReductionList evs = some out := by
  induction evs with
  | nil => exact ⟨[], rfl⟩
  | cons ev rest ih =>
    obtain ⟨out, hout⟩ := ih (fun r hr => hwf r (List.mem_cons_of_mem _ hr))
    refine ⟨(Header.marshal ev.header ++ ev.votedHash ++ writeBLS ev.signedHash) ++ out, ?_⟩
    rw [marshalReductionList,
      Reduction.marshal_isSome ev (hwf ev (List.mem_cons_self _ _)), hout]

theorem unmarshalReductionList_marshal (evs : List Reduction) (out rest : List Nat)
    (hwf : ∀ r ∈ evs, r.wf) (hm : marshalReductionList evs = some out) :
    unmarshalReductionList evs.length (out ++ rest) = some (evs, rest) := by
  induction evs generalizing out with
  | nil =>
    simp only [marshalReductionList, Option.some.injEq] at hm
    subst hm
    rfl
  | cons ev tl ih =>
    rw [marshalReductionList] at hm
    cases hme : ev.marshal with
    | none => rw [hme] at hm; cases hm
    | some b =>
      cases hml : marshalReductionList tl with
      | none => rw [hme, hml] at hm; cases hm
      | some bs =>
        rw [hme, hml] at hm
        simp only [Option.some.injEq] at hm
        subst hm
        rw [List.length_cons, unmarshalReductionList, List.append_assoc,
          reduction_unmarshal_marshal ev b (bs ++ rest)
            (hwf ev (List.mem_cons_self _ _)) hme]
        simp only
        rw [ih bs (fun r hr => hwf r (List.mem_cons_of_mem _ hr)) hml]

theorem unmarshalVoteSet_marshalVoteSet (evs : List Reduction) (out rest : List Nat)
    (hwf : ∀ r ∈ evs, r.wf) (hlen : evs.length < 2 ^ 64)
    (hm : marshalVoteSet evs = some out) :
    unmarshalVoteSet (out ++ rest) = some (evs, rest) := by
  unfold marshalVoteSet at hm
  cases hml : marshalReductionList evs with
  | none => rw [hml] at hm; cases hm
  | some body =>
    rw [hml] at hm
    simp only [Option.map_some', Option.some.injEq] at hm
    subst hm
    unfold unmarshalVoteSet readVarInt writeVarInt
    rw [List.append_assoc, readUint64_writeUint64, Nat.mod_eq_of_lt hlen]
    simp only
    exact unmarshalReductionList_marshal evs body rest hwf hml

theorem agreement_unmarshal_marshal (ev : Agreement) (out rest : List Nat)
    (hwf : ev.wf) (hm : ev.marshal = some out) :
    Agreement.unmarshal (out ++ rest) = some (ev, rest) := by
  obtain ⟨hh, hsig, hah, hlen, hvs⟩ := hwf
  unfold Agreement.marshal at hm
  cases hmv : marshalVoteSet ev.voteSet with
  | none => rw [hmv] at hm; cases hm
  | some vs =>
    rw [hmv, write256, if_pos hah] at hm
    simp only [Option.some.injEq] at hm
    subst hm
    unfold Agreement.unmarshal
    rw [List.append_assoc, List.append_assoc, List.append_assoc,
      header_unmarshal_marshal _ _ hh]
    simp only
    rw [readBLS_writeBLS _ _ hsig]
    simp only
    rw [unmarshalVoteSet_marshalVoteSet ev.voteSet vs _ hvs hlen hmv]
    simp only
    rw [read256_append _ _ hah]

/-- Claim C9: for every consensus event — a header of BLS public key, round and
step; for Reduction additionally a 32-byte voted hash and a BLS signature; for
Agreement additionally a signed vote set, a vote set and a 32-byte agreed hash
— unmarshalling the buffer produced by marshalling the event yields an event
equal to the original (any trailing buffer untouched). -/
theorem claim_C9_event_roundtrip :
    (∀ (h : Header) (rest : List Nat), h.wf →
      Header.unmarshal (Header.marshal h ++ rest) = some (h, rest)) ∧
    (∀ (ev : Reduction) (rest : List Nat), ev.wf →
      ∃ out, ev.marshal = some out ∧
        Reduction.unmarshal (out ++ rest) = some (ev, rest)) ∧
    (∀ (ev : Agreement) (rest : List Nat), ev.wf →
      ∃ out, ev.marshal = some out ∧
        Agreement.unmarshal (out ++ rest) = some (ev, rest)) := by
  refine ⟨fun h rest hwf => header_unmarshal_marshal h rest hwf,
    fun ev rest hwf => ?_, fun ev rest hwf => ?_⟩
  · exact ⟨_, Reduction.marshal_isSome ev hwf,
      reduction_unmarshal_marshal ev _ rest hwf (Reduction.marshal_isSome ev hwf)⟩
  · obtain ⟨body, hbody⟩ := marshalReductionList_isSome ev.voteSet hwf.2.2.2.2
    have hmv : marshalVoteSet ev.voteSet =
        some (writeVarInt ev.voteSet.length ++ body) := by
      unfold marshalVoteSet
      rw [hbody]
      rfl
    have hm : ev.marshal = some (Header.marshal ev.header ++ writeBLS ev.signedVoteSet ++
        (writeVarInt ev.voteSet.length ++ body) ++ ev.agreedHash) := by
      unfold Agreement.marshal
      rw [hmv, write256, if_pos hwf.2.2.1]
    exact ⟨_, hm, agreement_unmarshal_marshal ev _ rest hwf hm⟩

/-- Witness for C9 at a concrete reduction and agreement event. -/
theorem claim_C9_event_roundtrip_witness :
    (∃ out, (⟨⟨[1, 2], 3, 4⟩, List.replicate 32 9, [5]⟩ : Reduction).marshal = some out ∧
      Reduction.unmarshal (out ++ [0]) =
        some (⟨⟨[1, 2], 3, 4⟩, List.replicate 32 9, [5]⟩, [0])) ∧
    (∃ out, (⟨⟨[1], 2, 3⟩, [6], [⟨⟨[1, 2], 3, 4⟩, List.replicate 32 9, [5]⟩],
        List.replicate 32 8⟩ : Agreement).marshal = some out ∧
      Agreement.unmarshal (out ++ []) =
        some (⟨⟨[1], 2, 3⟩, [6], [⟨⟨[1, 2], 3, 4⟩, List.replicate 32 9, [5]⟩],
          List.replicate 32 8⟩, [])) :=
  ⟨claim_C9_event_roundtrip.2.1 _ [0] (by decide),
   claim_C9_event_roundtrip.2.2 _ [] (by decide)⟩

/-! ## Chain manager theorems -/

theorem runStateTransition_tip_eq (e : Executor) (c : ChainState) (blk : Block) :
    (runStateTransition e c blk).1.tip = c.tip := by
  unfold runStateTransition
  repeat' split
  all_goals rfl

theorem runStateTransition_err_frame (e : Executor) (c : ChainState) (blk : Block)
    (err : ChainError) (hout : (runStateTransition e c blk).2.1 = some err) :
    (runStateTransition e c blk).1 = c := by
  unfold runStateTransition at hout ⊢
  repeat' split
  all_goals first
  | rfl
  | (repeat' split at hout) <;> simp_all

theorem acceptBlock_tip_cases (v : BlockVerifier) (e : Executor) (c : ChainState)
    (blk : Block) :
    (acceptBlock v e c blk).chain.tip = c.tip ∨
      (acceptBlock v e c blk).chain.tip = blk := by
  unfold acceptBlock
  split
  · rcases hr : runStateTransition e c blk with ⟨c1, err, log⟩
    have htip : c1.tip = c.tip := by
      have h0 := runStateTransition_tip_eq e c blk
      rw [hr] at h0
      exact h0
    cases err with
    | some er => left; exact htip
    | none => right; rfl
  · left; rfl

theorem updateHighestSeen_tip (r : AcceptResult) (blk : Block) :
    (updateHighestSeen r blk).chain.tip = r.chain.tip := by
  unfold updateHighestSeen
  repeat' split
  all_goals rfl

theorem acceptSuccessiveBlock_tip_cases (v : BlockVerifier) (e : Executor)
    (c : ChainState) (blk : Block) :
    (acceptSuccessiveBlock v e c blk).chain.tip = c.tip ∨
      (acceptSuccessiveBlock v e c blk).chain.tip = blk := by
  have h := acceptBlock_tip_cases v e c blk
  unfold acceptSuccessiveBlock
  rw [updateHighestSeen_tip]
  exact h

theorem synchronizerProcessBlock_height (v : BlockVerifier) (e : Executor)
    (c : ChainState) (blk : Block) :
    (synchronizerProcessBlock v e c blk).1.tip.header.height = c.tip.header.height ∨
      (synchronizerProcessBlock v e c blk).1.tip.header.height =
        c.tip.header.height + 1 := by
  unfold synchronizerProcessBlock
  by_cases h5 : blk.header.height = c.tip.header.height + 1
  · rw [if_pos h5]
    rcases acceptSuccessiveBlock_tip_cases v e c blk with h | h
    · left
      simp only [h]
    · right
      simp only [h, h5]
  · rw [if_neg h5]
    by_cases h6 : c.tip.header.height + 1 < blk.header.height
    · rw [if_pos h6]
      left
      rfl
    · rw [if_neg h6]
      left
      rfl

/-- Claim C4: across ProcessBlockFromNetwork the tip height never decreases —
acceptance moves it to tip+1, fallback keeps the height, everything else keeps
the tip. -/
theorem claim_C4_tip_monotonic (v : BlockVerifier) (e : Executor) (c : ChainState)
    (blk : Block) :
    c.tip.header.height ≤ (ProcessBlockFromNetwork v e c blk).1.tip.header.height ∧
    ((ProcessBlockFromNetwork v e c blk).1.tip.header.height = c.tip.header.height ∨
      (ProcessBlockFromNetwork v e c blk).1.tip.header.height =
        c.tip.header.height + 1) := by
  have main : (ProcessBlockFromNetwork v e c blk).1.tip.header.height =
      c.tip.header.height ∨
      (ProcessBlockFromNetwork v e c blk).1.tip.header.height =
        c.tip.header.height + 1 := by
    unfold ProcessBlockFromNetwork
    by_cases h1 : blk.header.height = c.tip.header.height
    · rw [if_pos h1]
      by_cases h2 : blk.header.hash = c.tip.header.hash
      · rw [if_pos h2]; left; rfl
      · rw [if_neg h2]
        unfold tryFallback
        split
        · left; exact h1
        · left; rfl
    · rw [if_neg h1]
      by_cases h3 : blk.header.height < c.tip.header.height
      · rw [if_pos h3]; left; rfl
      · rw [if_neg h3]
        by_cases h4 : c.highestSeen < blk.header.height
        · rw [if_pos h4]
          exact synchronizerProcessBlock_height v e _ blk
        · rw [if_neg h4]
          exact synchronizerProcessBlock_height v e c blk
  exact ⟨by omega, main⟩

/-- Claim C10: a block strictly below the tip, or the tip block itself, is
silently discarded — nil error, nil response, state (tip, provisioners,
highestSeen, sync state) unchanged. -/
theorem claim_C10_stale_discard (v : BlockVerifier) (e : Executor) (c : ChainState)
    (blk : Block) :
    (blk.header.height < c.tip.header.height →
      ProcessBlockFromNetwork v e c blk = (c, none, none)) ∧
    (blk.header.height = c.tip.header.height → blk.header.hash = c.tip.header.hash →
      ProcessBlockFromNetwork v e c blk = (c, none, none)) := by
  constructor
  · intro hlt
    unfold ProcessBlockFromNetwork
    rw [if_neg (by omega), if_pos hlt]
  · intro heq hh
    unfold ProcessBlockFromNetwork
    rw [if_pos heq, if_pos hh]

/-- Witness for C10: a height-3 block against the height-5 tip, and the tip
block itself. -/
theorem claim_C10_stale_discard_witness :
    ProcessBlockFromNetwork verifier0 exec0 chain0 (mkBlock 3 [] [9] [1] 3) =
      (chain0, none, none) ∧
    ProcessBlockFromNetwork verifier0 exec0 chain0 tip0 = (chain0, none, none) :=
  ⟨(claim_C10_stale_discard verifier0 exec0 chain0 _).1 (by decide),
   (claim_C10_stale_discard verifier0 exec0 chain0 tip0).2 (by decide) (by decide)⟩

/-- Claim C2 counterexample: a block whose certificate step is 1 reaches the
Accept RPC, not Finalize — the code selects Finalize on step 3, refuting
"Finalize if and only if the certificate step equals 1". -/
theorem claim_C2_counterexample :
    blockStep1.header.certificate.step = 1 ∧
    (runStateTransition exec0 chain0 blockStep1).2.2 =
      [{ op := ExecOp.accept, txs := [], prevStateHash := [1], height := 6,
         gasLimit := blockGasLimit }] := by
  constructor
  · rfl
  · rfl

/-- Claim C2 (amended): whenever the state-hash sanity check passes, exactly
one state-transition RPC is issued, it is Finalize iff the certificate step is
3 (Accept otherwise), and its arguments are (txs, previous tip's state hash,
block height, gas limit). -/
theorem claim_C2_exec_dispatch (e : Executor) (c : ChainState) (blk : Block)
    (hroot : e.stateRoot = some c.tip.header.stateHash)
    (hne : c.tip.header.stateHash ≠ []) :
    (runStateTransition e c blk).2.2 = [execCallFor blk c.tip.header.stateHash] ∧
    ((execCallFor blk c.tip.header.stateHash).op = ExecOp.finalize ↔
      blk.header.certificate.step = 3) ∧
    (execCallFor blk c.tip.header.stateHash).txs = blk.txs ∧
    (execCallFor blk c.tip.header.stateHash).prevStateHash = c.tip.header.stateHash ∧
    (execCallFor blk c.tip.header.stateHash).height = blk.header.height ∧
    (execCallFor blk c.tip.header.stateHash).gasLimit = blockGasLimit := by
  refine ⟨?_, ?_, rfl, rfl, rfl, rfl⟩
  · unfold runStateTransition
    rw [hroot]
    simp only
    rw [if_neg (by simp [hne])]
    cases hre : runExec e (execCallFor blk c.tip.header.stateHash) with
    | none => simp [hre]
    | some pr =>
      cases pr with
      | mk a b =>
        simp only [hre]
        split <;> rfl
  · unfold execCallFor
    by_cases h3 : blk.header.certificate.step = 3
    · simp [h3]
    · simp [h3]

/-- Witness for C2 at the concrete sample chain and executor. -/
theorem claim_C2_exec_dispatch_witness :
    (runStateTransition exec0 chain0 blockStep1).2.2 =
      [execCallFor blockStep1 chain0.tip.header.stateHash] ∧
    ((execCallFor blockStep1 chain0.tip.header.stateHash).op = ExecOp.finalize ↔
      blockStep1.header.certificate.step = 3) ∧
    (execCallFor blockStep1 chain0.tip.header.stateHash).txs = blockStep1.txs ∧
    (execCallFor blockStep1 chain0.tip.header.stateHash).prevStateHash =
      chain0.tip.header.stateHash ∧
    (execCallFor blockStep1 chain0.tip.header.stateHash).height =
      blockStep1.header.height ∧
    (execCallFor blockStep1 chain0.tip.header.stateHash).gasLimit = blockGasLimit :=
  claim_C2_exec_dispatch exec0 chain0 blockStep1 (by decide) (by decide)

/-- Claim C3: when the checks pass but the executor's returned state hash
differs from the block header's, acceptance returns `errInvalidStateHash` and
the whole chain state — tip and provisioners included — is untouched; the
block is not appended and no AcceptedBlock event is published. -/
theorem claim_C3_invalid_state_hash (v : BlockVerifier) (e : Executor)
    (c : ChainState) (blk : Block) (provs : Provisioners) (rsh : List Nat)
    (hvalid : isValidBlock v c blk = true)
    (hroot : e.stateRoot = some c.tip.header.stateHash)
    (hne : c.tip.header.stateHash ≠ [])
    (hexec : runExec e (execCallFor blk c.tip.header.stateHash) = some (provs, rsh))
    (hdiff : rsh ≠ blk.header.stateHash) :
    acceptBlock v e c blk =
      { chain := c, err := some ChainError.invalidStateHash,
        appended := false, publishedAccepted := false } := by
  have hrst : runStateTransition e c blk =
      (c, some ChainError.invalidStateHash,
        [execCallFor blk c.tip.header.stateHash]) := by
    unfold runStateTransition
    rw [hroot]
    simp only
    rw [if_neg (by simp [hne])]
    simp only [hexec]
    rw [if_neg hdiff]
  unfold acceptBlock
  rw [if_pos hvalid, hrst]

/-- Witness for C3: the block declaring state hash `0xAA` while the executor
answers `[2]` is rejected with the chain state intact. -/
theorem claim_C3_invalid_state_hash_witness :
    acceptBlock verifier0 exec0 chain0 blockBadHash =
      { chain := chain0, err := some ChainError.invalidStateHash,
        appended := false, publishedAccepted := false } :=
  claim_C3_invalid_state_hash verifier0 exec0 chain0 blockBadHash
    { set := [[8]], members := [] } [2]
    (by decide) (by decide) (by decide) (by decide) (by decide)

/-- Claim C8: the round update handed to consensus after a block is accepted
has round = tip height + 1 and carries a copy of the current provisioner set,
the tip's seed, the tip's hash and the tip's certificate. -/
theorem claim_C8_roundupdate (c : ChainState) :
    (getRoundUpdate c).round = c.tip.header.height + 1 ∧
    (getRoundUpdate c).p = c.p ∧
    (getRoundUpdate c).seed = c.tip.header.seed ∧
    (getRoundUpdate c).hash = c.tip.header.hash ∧
    (getRoundUpdate c).lastCertificate = c.tip.header.certificate :=
  ⟨rfl, rfl, rfl, rfl, rfl⟩

/-! ## Reduction-phase theorems -/

theorem countLoop_nil (committee : List (List Nat)) (counts : List Nat → Nat)
    (voters : List (List Nat)) :
    countSigSetVotesLoop committee [] counts voters = none := rfl

theorem countLoop_cons (committee : List (List Nat)) (m : SigSetVoteMsg)
    (rest : List SigSetVoteMsg) (counts : List Nat → Nat)
    (voters : List (List Nat)) :
    countSigSetVotesLoop committee (m :: rest) counts voters =
      match countStep committee counts voters m with
      | Sum.inl (counts', voters') =>
        countSigSetVotesLoop committee rest counts' voters'
      | Sum.inr h => some h := rfl

theorem aggW_nil (committee : List (List Nat)) (voters : List (List Nat))
    (h : List Nat) : aggW committee voters [] h = 0 := rfl

theorem aggW_cons (committee : List (List Nat)) (voters : List (List Nat))
    (m : SigSetVoteMsg) (rest : List SigSetVoteMsg) (h : List Nat) :
    aggW committee voters (m :: rest) h =
      if m.pubKey ∈ voters then aggW committee voters rest h
      else
        (if m.sigSetHash = h then sortitionVerify committee m.pubKey else 0) +
          aggW committee (m.pubKey :: voters) rest h := rfl

theorem countStep_dup (committee : List (List Nat)) (counts : List Nat → Nat)
    (voters : List (List Nat)) (m : SigSetVoteMsg) (hm : m.pubKey ∈ voters) :
    countStep committee counts voters m = Sum.inl (counts, voters) := by
  unfold countStep
  rw [if_pos hm]

theorem countStep_inl_voters (committee : List (List Nat)) (counts : List Nat → Nat)
    (voters : List (List Nat)) (m : SigSetVoteMsg) (counts' : List Nat → Nat)
    (voters' : List (List Nat))
    (hstep : countStep committee counts voters m = Sum.inl (counts', voters')) :
    (∀ x ∈ voters, x ∈ voters') ∧ m.pubKey ∈ voters' := by
  unfold countStep at hstep
  by_cases hm : m.pubKey ∈ voters
  · rw [if_pos hm] at hstep
    simp only [Sum.inl.injEq, Prod.mk.injEq] at hstep
    rw [← hstep.2]
    exact ⟨fun x hx => hx, hm⟩
  · rw [if_neg hm] at hstep
    by_cases hq : (counts m.sigSetHash + sortitionVerify committee m.pubKey) % 256 <
        committee.length % 256
    · rw [if_pos hq] at hstep
      simp only [Sum.inl.injEq, Prod.mk.injEq] at hstep
      rw [← hstep.2]
      exact ⟨fun x hx => List.mem_cons_of_mem _ hx, List.mem_cons_self _ _⟩
    · rw [if_neg hq] at hstep
      cases hstep

/-- Claim C7: within one reduction step a vote from a sender already recorded
is dropped — the counting state (counts, voters) is untouched, and deleting the
duplicate from the arrival sequence does not change the step's outcome. -/
theorem claim_C7_dedup (committee : List (List Nat)) :
    (∀ (counts : List Nat → Nat) (voters : List (List Nat)) (m : SigSetVoteMsg),
      m.pubKey ∈ voters →
      countStep committee counts voters m = Sum.inl (counts, voters)) ∧
    (∀ (pre : List SigSetVoteMsg) (m : SigSetVoteMsg) (rest : List SigSetVoteMsg)
      (counts : List Nat → Nat) (voters : List (List Nat)),
      m.pubKey ∈ voters ∨ m.pubKey ∈ pre.map SigSetVoteMsg.pubKey →
      countSigSetVotesLoop committee (pre ++ m :: rest) counts voters =
        countSigSetVotesLoop committee (pre ++ rest) counts voters) := by
  constructor
  · exact fun counts voters m hm => countStep_dup committee counts voters m hm
  · intro pre
    induction pre with
    | nil =>
      intro m rest counts voters hmem
      have hm : m.pubKey ∈ voters := by
        rcases hmem with hm | hm
        · exact hm
        · simp at hm
      rw [List.nil_append, List.nil_append, countLoop_cons,
        countStep_dup committee counts voters m hm]
    | cons q pre ih =>
      intro m rest counts voters hmem
      rw [List.cons_append, List.cons_append, countLoop_cons, countLoop_cons]
      cases hstep : countStep committee counts voters q with
      | inl pr =>
        cases pr with
        | mk counts' voters' =>
          simp only
          apply ih
          have hv := countStep_inl_voters committee counts voters q counts' voters' hstep
          rcases hmem with hm | hm
          · exact Or.inl (hv.1 _ hm)
          · rw [List.map_cons, List.mem_cons] at hm
            rcases hm with hm | hm
            · exact Or.inl (hm ▸ hv.2)
            · exact Or.inr hm
      | inr h => simp only

/-- Witness for C7: dropping a duplicate vote of sender `[2]` leaves the
outcome of the collection loop unchanged. -/
theorem claim_C7_dedup_witness :
    countSigSetVotesLoop [[1], [2]]
      ([SigSetVoteMsg.mk [2] (List.replicate 32 5)] ++
        SigSetVoteMsg.mk [2] (List.replicate 32 6) ::
          [SigSetVoteMsg.mk [1] (List.replicate 32 6)])
      (fun _ => 0) [] =
    countSigSetVotesLoop [[1], [2]]
      ([SigSetVoteMsg.mk [2] (List.replicate 32 5)] ++
        [SigSetVoteMsg.mk [1] (List.replicate 32 6)])
      (fun _ => 0) [] :=
  (claim_C7_dedup [[1], [2]]).2 [SigSetVoteMsg.mk [2] (List.replicate 32 5)]
    (SigSetVoteMsg.mk [2] (List.replicate 32 6))
    [SigSetVoteMsg.mk [1] (List.replicate 32 6)]
    (fun _ => 0) [] (Or.inr (by decide))

/-- Claim C6: if the first reduction step's vote collection times out, the
hash at entry to the second reduction step is the 32-byte zero hash. -/
theorem claim_C6_fallback_hash (cA : List (List Nat)) (edPk : List Nat)
    (hv : List Nat → List Nat) (msgs1 : List SigSetVoteMsg) (ctx0 : ReductionCtx)
    (htimeout : countSigSetVotesLoop cA msgs1 (fun _ => 0) [] = none) :
    (secondStepEntry cA edPk hv msgs1 ctx0).sigSetHash =
      some (List.replicate 32 0) := by
  unfold secondStepEntry firstStepState countSigSetVotes
  rw [htimeout]
  rfl

/-- Witness for C6: with no arriving votes the first step times out and the
second step starts from the zero hash. -/
theorem claim_C6_fallback_hash_witness :
    (secondStepEntry [] [9] (fun _ => [1]) [] ⟨1, none, [], fun _ => []⟩).sigSetHash =
      some (List.replicate 32 0) :=
  claim_C6_fallback_hash [] [9] (fun _ => [1]) [] ⟨1, none, [], fun _ => []⟩ rfl

/-- Claim C5: after the second reduction step, `agreement.SendSet` is invoked
with the winning vote set exactly when the second vote count reached quorum on
a hash different from the 32-byte zero hash; on timeout or on the zero hash the
function returns with no Agreement formed. -/
theorem claim_C5_agreement_formation (cA cB : List (List Nat)) (edPk : List Nat)
    (hv : List Nat → List Nat) (msgs1 msgs2 : List SigSetVoteMsg)
    (ctx0 : ReductionCtx) :
    (countSigSetVotesLoop cB msgs2 (fun _ => 0) [] = none →
      (SignatureSet cA cB edPk hv msgs1 msgs2 ctx0).2 = none) ∧
    (countSigSetVotesLoop cB msgs2 (fun _ => 0) [] = some emptyHash →
      (SignatureSet cA cB edPk hv msgs1 msgs2 ctx0).2 = none) ∧
    (∀ h, countSigSetVotesLoop cB msgs2 (fun _ => 0) [] = some h → h ≠ emptyHash →
      (SignatureSet cA cB edPk hv msgs1 msgs2 ctx0).2 =
        some ((sigSetVote cB edPk hv
          (secondStepEntry cA edPk hv msgs1 ctx0)).allVotes h)) := by
  refine ⟨?_, ?_, ?_⟩
  · intro h0
    simp only [SignatureSet, countSigSetVotes, h0]
  · intro h0
    simp [SignatureSet, countSigSetVotes, h0, emptyHash]
  · intro h hsome hne
    simp only [SignatureSet, countSigSetVotes, hsome]
    rw [if_neg hne]

/-- Witness for C5: a single-member committee reaching quorum on a non-zero
hash leads to an Agreement with the recorded vote set. -/
theorem claim_C5_agreement_formation_witness :
    (SignatureSet [] [[1]] [9] (fun _ => List.replicate 32 5)
      [] [SigSetVoteMsg.mk [1] (List.replicate 32 5)]
      ⟨1, none, [7], fun _ => []⟩).2 =
    some ((sigSetVote [[1]] [9] (fun _ => List.replicate 32 5)
      (secondStepEntry [] [9] (fun _ => List.replicate 32 5) []
        ⟨1, none, [7], fun _ => []⟩)).allVotes (List.replicate 32 5)) :=
  (claim_C5_agreement_formation [] [[1]] [9] (fun _ => List.replicate 32 5)
    [] [SigSetVoteMsg.mk [1] (List.replicate 32 5)]
    ⟨1, none, [7], fun _ => []⟩).2.2 (List.replicate 32 5) (by decide) (by decide)

theorem filter_not_mem_split (c : List (List Nat)) (pk : List Nat)
    (voters : List (List Nat)) (hpk : pk ∉ voters) :
    (c.filter fun x => decide (x ∉ voters)).length =
      (c.filter fun x => decide (x = pk)).length +
      (c.filter fun x => decide (x ∉ pk :: voters)).length := by
  induction c with
  | nil => rfl
  | cons a c ih =>
    simp only [List.filter_cons]
    by_cases hx : a = pk
    · subst hx
      rw [if_pos (by simpa using hpk), if_pos (by simp),
        if_neg (by simp [List.mem_cons])]
      simp only [List.length_cons]
      omega
    · by_cases hv : a ∈ voters
      · rw [if_neg (by simpa using hv), if_neg (by simp [hx]),
          if_neg (by simp [List.mem_cons, hv])]
        exact ih
      · rw [if_pos (by simpa using hv), if_neg (by simp [hx]),
          if_pos (by simp [List.mem_cons, hx, hv])]
        simp only [List.length_cons]
        omega

theorem aggW_le (committee : List (List Nat)) (msgs : List SigSetVoteMsg)
    (voters : List (List Nat)) (h : List Nat) :
    aggW committee voters msgs h ≤
      (committee.filter fun x => decide (x ∉ voters)).length := by
  induction msgs generalizing voters with
  | nil => simp [aggW_nil]
  | cons m rest ih =>
    rw [aggW_cons]
    by_cases hm : m.pubKey ∈ voters
    · rw [if_pos hm]
      exact ih voters
    · rw [if_neg hm]
      have hsplit := filter_not_mem_split committee m.pubKey voters hm
      have h2 := ih (m.pubKey :: voters)
      have hver : sortitionVerify committee m.pubKey =
          (committee.filter fun x => decide (x = m.pubKey)).length := rfl
      by_cases hh : m.sigSetHash = h
      · rw [if_pos hh]
        omega
      · rw [if_neg hh]
        omega

theorem countLoop_characterization (committee : List (List Nat))
    (hc : committee.length ≤ 255) (msgs : List SigSetVoteMsg) :
    ∀ (counts : List Nat → Nat) (voters : List (List Nat)),
      (∀ h', counts h' + aggW committee voters msgs h' ≤ committee.length) →
      (∀ h', counts h' < committee.length) →
      ((countSigSetVotesLoop committee msgs counts voters = none ↔
        ∀ h', counts h' + aggW committee voters msgs h' < committee.length) ∧
       (∀ h', countSigSetVotesLoop committee msgs counts voters = some h' →
        committee.length ≤ counts h' + aggW committee voters msgs h')) := by
  induction msgs with
  | nil =>
    intro counts voters Hsum Hlt
    refine ⟨⟨fun _ h' => ?_, fun _ => rfl⟩, fun h' hsome => ?_⟩
    · rw [aggW_nil]
      simpa using Hlt h'
    · rw [countLoop_nil] at hsome
      cases hsome
  | cons m rest ih =>
    intro counts voters Hsum Hlt
    by_cases hm : m.pubKey ∈ voters
    · have haggeq : ∀ h', aggW committee voters (m :: rest) h' =
          aggW committee voters rest h' := fun h' => by rw [aggW_cons, if_pos hm]
      have IH := ih counts voters (fun h' => haggeq h' ▸ Hsum h') Hlt
      rw [countLoop_cons, countStep_dup committee counts voters m hm]
      simp only [haggeq]
      exact IH
    · have hlimit : committee.length % 256 = committee.length :=
        Nat.mod_eq_of_lt (by omega)
      have hvle : counts m.sigSetHash + sortitionVerify committee m.pubKey ≤
          committee.length := by
        have h0 := Hsum m.sigSetHash
        rw [aggW_cons, if_neg hm, if_pos rfl] at h0
        omega
      have hmod : (counts m.sigSetHash + sortitionVerify committee m.pubKey) % 256 =
          counts m.sigSetHash + sortitionVerify committee m.pubKey :=
        Nat.mod_eq_of_lt (by omega)
      rw [countLoop_cons]
      unfold countStep
      rw [if_neg hm, hmod, hlimit]
      by_cases hq : counts m.sigSetHash + sortitionVerify committee m.pubKey <
          committee.length
      · rw [if_pos hq]
        have hcv : ∀ h',
            (if h' = m.sigSetHash then
              counts m.sigSetHash + sortitionVerify committee m.pubKey
            else counts h') + aggW committee (m.pubKey :: voters) rest h' =
            counts h' + aggW committee voters (m :: rest) h' := by
          intro h'
          by_cases hh : h' = m.sigSetHash
          · subst hh
            rw [if_pos rfl, aggW_cons, if_neg hm, if_pos rfl]
            omega
          · rw [if_neg hh, aggW_cons, if_neg hm,
              if_neg (fun e => hh e.symm)]
            omega
        have Hsum' : ∀ h',
            (if h' = m.sigSetHash then
              counts m.sigSetHash + sortitionVerify committee m.pubKey
            else counts h') + aggW committee (m.pubKey :: voters) rest h' ≤
            committee.length := by
          intro h'
          rw [hcv h']
          exact Hsum h'
        have Hlt' : ∀ h',
            (if h' = m.sigSetHash then
              counts m.sigSetHash + sortitionVerify committee m.pubKey
            else counts h') < committee.length := by
          intro h'
          by_cases hh : h' = m.sigSetHash
          · rw [if_pos hh]
            exact hq
          · rw [if_neg hh]
            exact Hlt h'
        have IH := ih
          (fun h' => if h' = m.sigSetHash then
            counts m.sigSetHash + sortitionVerify committee m.pubKey
          else counts h') (m.pubKey :: voters) Hsum' Hlt'
        refine ⟨Iff.trans IH.1 ?_, fun h' hsome => ?_⟩
        · constructor
          · intro hall h'
            have h1 := hall h'
            simp only at h1
            rw [hcv h'] at h1
            exact h1
          · intro hall h'
            simp only
            rw [hcv h']
            exact hall h'
        · have hb := IH.2 h' hsome
          simp only at hb
          rw [hcv h'] at hb
          exact hb
      · rw [if_neg hq]
        refine ⟨⟨fun hcontra => ?_, fun hall => ?_⟩, fun h' hsome => ?_⟩
        · cases hcontra
        · exfalso
          have h0 := hall m.sigSetHash
          rw [aggW_cons, if_neg hm, if_pos rfl] at h0
          omega
        · have he : m.sigSetHash = h' := by
            injection hsome
          subst he
          rw [aggW_cons, if_neg hm, if_pos rfl]
          omega

/-- Claim C1 counterexample: committee `[[1],[2],[3]]` (three seats), spec
quorum threshold `⌈2/3·3⌉ = 2`; two distinct senders vote the same hash for an
aggregated weight of 2, yet the counting loop does not conclude — refuting
"the hash is forwarded exactly when the aggregated weight reaches
`⌈2/3 · committeeSize⌉`". -/
theorem claim_C1_counterexample :
    specQuorumThreshold 3 = 2 ∧
    aggregatedWeight [[1], [2], [3]]
      [SigSetVoteMsg.mk [1] (List.replicate 32 5),
       SigSetVoteMsg.mk [2] (List.replicate 32 5)] (List.replicate 32 5) = 2 ∧
    countSigSetVotesLoop [[1], [2], [3]]
      [SigSetVoteMsg.mk [1] (List.replicate 32 5),
       SigSetVoteMsg.mk [2] (List.replicate 32 5)] (fun _ => 0) [] = none := by
  refine ⟨rfl, by decide, by decide⟩

/-- Claim C1 (amended): for a nonempty committee of at most 255 seats, the
vote-counting loop concludes and forwards a hash exactly when the aggregated
committee weight (seats of deduplicated senders) on a single hash reaches
`voteLimit = len(ctx.CurrentCommittee)` — the full committee seat count, not
`⌈2/3·committeeSize⌉`; no hash is forwarded at a lower aggregated weight. -/
theorem claim_C1_vote_limit (committee : List (List Nat)) (msgs : List SigSetVoteMsg)
    (hc : committee.length ≤ 255) (hpos : 0 < committee.length) :
    (countSigSetVotesLoop committee msgs (fun _ => 0) [] = none ↔
      ∀ h, aggregatedWeight committee msgs h < committee.length) ∧
    (∀ h, countSigSetVotesLoop committee msgs (fun _ => 0) [] = some h →
      committee.length ≤ aggregatedWeight committee msgs h) := by
  have hfilter : (committee.filter fun x => decide (x ∉ ([] : List (List Nat)))) =
      committee :=
    List.filter_eq_self.mpr (fun a _ => by simp)
  have Hsum : ∀ h', (0 : Nat) + aggW committee [] msgs h' ≤ committee.length := by
    intro h'
    have hb := aggW_le committee msgs [] h'
    rw [hfilter] at hb
    omega
  have main := countLoop_characterization committee hc msgs (fun _ => 0) []
    Hsum (fun _ => hpos)
  simpa [aggregatedWeight] using main

/-- Witness for C1: a one-seat committee forwards only at full weight 1. -/
theorem claim_C1_vote_limit_witness :
    ([[1]] : List (List Nat)).length ≤
      aggregatedWeight [[1]] [SigSetVoteMsg.mk [1] (List.replicate 32 5)]
        (List.replicate 32 5) :=
  (claim_C1_vote_limit [[1]] [SigSetVoteMsg.mk [1] (List.replicate 32 5)]
    (by decide) (by decide)).2 (List.replicate 32 5) (by decide)

end Dusk
